import Mathlib

/-!
Verification of the DMARC evaluator of the `mail-auth` library
(`src/dmarc/verify.rs`), shallowly embedded in Lean 4.

Rust strings are modelled as lists of characters; the DNS resolver is an
abstract function from query names to `Except Error Dmarc`; the `unwrap`
calls inside the DKIM alignment closures are modelled in an `Option` monad
where `none` stands for a panic, with the short-circuit evaluation order of
Rust's `&&` and `Iterator::any` preserved.
-/

set_option maxRecDepth 8000

namespace MailAuth

/-- Domain and address strings are modelled as lists of characters,
mirroring Rust `&str` for the operations the DMARC verifier uses
(equality, suffix tests, splitting at a character). -/
abbrev Str := List Char

/-- View of a Lean string literal in the character-list model. -/
def str (s : String) : Str := s.data

/-- Rust `str::ends_with`: true iff `t` is a suffix of `s`. -/
def strEndsWith (s t : Str) : Bool :=
  if t.length ≤ s.length then decide (s.drop (s.length - t.length) = t) else false

/-- Rust `str::rsplit_once(c)`: splits at the last occurrence of `c`,
returning the parts before and after it; `none` when `c` does not occur. -/
def rsplitOnce (c : Char) : Str → Option (Str × Str)
  | [] => none
  | a :: as =>
    match rsplitOnce c as with
    | some (l, r) => some (a :: l, r)
    | none => if a = c then some ([], as) else none

/-- Rust `str::split(c)` collected into a vector: the chunks between
occurrences of `c`.  The result is never empty (the empty string splits
into `[[]]`), matching Rust's `split`. -/
def splitChar (c : Char) : Str → List Str
  | [] => [[]]
  | a :: as =>
    match splitChar c as with
    | [] => [[]]
    | r :: rs => if a = c then [] :: r :: rs else (a :: r) :: rs

/-- Modelled from the spec: the crate's unified error taxonomy (`Error` in
`lib.rs`, which is not part of the surfaced sources), reduced to the
variants the DMARC verifier distinguishes; payloads are dropped because
`verify.rs` only ever matches on the constructor. -/
inductive Error
  | DMARCNotAligned
  | DNSError
  | DNSRecordNotFound
  | InvalidRecordType
  | SignatureExpired
  | ParseError
deriving DecidableEq

/-- Modelled from the spec: SPF verdicts (§6, SpfOutput.result). -/
inductive SpfResult
  | Pass
  | Fail
  | SoftFail
  | Neutral
  | None
  | TempError
  | PermError
deriving DecidableEq

/-- Modelled from the spec: per-signature DKIM verdicts; `verify.rs` only
compares against `Pass`. -/
inductive DkimResult
  | Pass
  | Neutral (e : Error)
  | Fail (e : Error)
  | PermError (e : Error)
  | TempError (e : Error)
  | None
deriving DecidableEq

/-- Modelled from the spec: DMARC axis results
`{none, pass, fail(reason), temperror, permerror}` (§3, DmarcOutput). -/
inductive DmarcResult
  | None
  | Pass
  | Fail (e : Error)
  | TempError (e : Error)
  | PermError (e : Error)
deriving DecidableEq

/-- Modelled from the spec: requested policies `{none, quarantine, reject}`
plus the crate's unspecified default. -/
inductive Policy
  | Unspecified
  | None
  | Quarantine
  | Reject
deriving DecidableEq

/-- Alignment modes (`dmarc/mod.rs`): strict or relaxed. -/
inductive Alignment
  | Relaxed
  | Strict
deriving DecidableEq

/-- The fields of a parsed DMARC record that `verify.rs` consults:
policy `p`, subdomain policy `sp`, and the two alignment modes. -/
structure Dmarc where
  p : Policy
  sp : Policy
  aspf : Alignment
  adkim : Alignment
deriving DecidableEq

/-- The field of a DKIM `Signature` that the DMARC verifier reads: the
signing domain `d`. -/
structure Signature where
  d : Str
deriving DecidableEq

/-- Modelled from the spec: a DKIM verification output; `verify.rs` reads
`result` and unwraps `signature`. -/
structure DkimOutput where
  result : DkimResult
  signature : Option Signature
deriving DecidableEq

/-- Modelled from the spec: an SPF verification output; `verify.rs` reads
only `result`. -/
structure SpfOutput where
  result : SpfResult
  domain : Str
deriving DecidableEq

/-- A `mailto:` report URI (`dmarc/mod.rs`): the address string and its
optional size limit. -/
structure URI where
  uri : Str
  max_size : Nat
deriving DecidableEq

/-- Modelled from the spec: the DMARC verdict structure
`{domain, policy, spf_result, dkim_result, record}` (§3). -/
structure DmarcOutput where
  domain : Str
  policy : Policy
  spf_result : DmarcResult
  dkim_result : DmarcResult
  record : Option Dmarc
deriving DecidableEq

/-- Modelled from the spec: `DmarcOutput::default()` — empty domain, all
axis results `none`, no policy, no record. -/
def DmarcOutput.default : DmarcOutput :=
  { domain := [], policy := Policy.Unspecified, spf_result := DmarcResult.None,
    dkim_result := DmarcResult.None, record := none }

/-- Builder `DmarcOutput::with_domain`. -/
def DmarcOutput.with_domain (o : DmarcOutput) (d : Str) : DmarcOutput :=
  { o with domain := d }

/-- Builder `DmarcOutput::with_spf_result`. -/
def DmarcOutput.with_spf_result (o : DmarcOutput) (r : DmarcResult) : DmarcOutput :=
  { o with spf_result := r }

/-- Builder `DmarcOutput::with_dkim_result`. -/
def DmarcOutput.with_dkim_result (o : DmarcOutput) (r : DmarcResult) : DmarcOutput :=
  { o with dkim_result := r }

/-- Builder `DmarcOutput::with_record`: stores the found record. -/
def DmarcOutput.with_record (o : DmarcOutput) (r : Dmarc) : DmarcOutput :=
  { o with record := some r }

/-- Modelled from the spec: `impl From<Error> for DmarcResult` (§7 of the
spec: transport errors are transient → temperror, the rest permerror). -/
def DmarcResult.ofError (e : Error) : DmarcResult :=
  match e with
  | Error.DNSError => DmarcResult.TempError e
  | _ => DmarcResult.PermError e

/-- The resolver's `txt_lookup::<Dmarc>`, abstracted as a pure function
from fully-qualified query names to results. -/
abbrev Dns := Str → Except Error Dmarc

/-- True iff a lookup result is `Ok`. -/
def isOkE (r : Except Error Dmarc) : Bool :=
  match r with
  | Except.ok _ => true
  | Except.error _ => false

/-! ### The DMARC tree walk (`Resolver::dmarc_tree_walk`) -/

/-- The query name built by the walk for a given `x`:
`_dmarc.<rightmost x labels>.` (each label preceded by a dot). -/
def dmarcQueryName (labels : List Str) (x : Nat) : Str :=
  str "_dmarc" ++ (labels.drop (labels.length - x)).foldr (fun l acc => '.' :: (l ++ acc)) [] ++ ['.']

/-- The label-count update of the walk: if `x < 5`, remove one label,
otherwise jump to 4 labels. -/
def walkStep (x : Nat) : Nat := if x < 5 then x - 1 else 4

/-- The loop of `dmarc_tree_walk`, instrumented to also return the list of
DNS names queried, in order.  `x` counts the rightmost labels used; on
`DNSRecordNotFound` or `InvalidRecordType` the walk continues with
`walkStep x`; any other error aborts.  The loop terminates because `x`
strictly decreases; to keep the function kernel-reducible it recurses
structurally on a `fuel` argument started at `x`, and
`dmarcTreeWalkAux_fuel` shows any `fuel ≥ x` computes the same value. -/
def dmarcTreeWalkAux (dns : Dns) (labels : List Str) :
    Nat → Nat → Except Error (Option Dmarc) × List Str
  | _, 0 => (Except.ok none, [])
  | 0, _ + 1 => (Except.ok none, [])
  | fuel + 1, x + 1 =>
    let name := dmarcQueryName labels (x + 1)
    match dns name with
    | Except.ok d => (Except.ok (some d), [name])
    | Except.error e =>
      if e = Error.DNSRecordNotFound ∨ e = Error.InvalidRecordType then
        let r := dmarcTreeWalkAux dns labels fuel (walkStep (x + 1))
        (r.1, name :: r.2)
      else (Except.error e, [name])

/-- The walk `Resolver::dmarc_tree_walk`, instrumented with the query list: splits
the domain into labels, returns `None` when there is a single label, and
otherwise walks starting from `x = |labels|`. -/
def dmarc_tree_walk (dns : Dns) (domain : Str) :
    Except Error (Option Dmarc) × List Str :=
  let labels := splitChar '.' domain
  if labels.length = 1 then (Except.ok none, [])
  else dmarcTreeWalkAux dns labels labels.length labels.length

/-! ### DMARC evaluation (`Resolver::verify_dmarc`) -/

/-- The RFC5322.From extraction loop of `verify_dmarc`: folds over the
From addresses, keeping the first nonempty domain after the final `@`;
a later differing domain triggers the multi-domain exemption (`none`). -/
def extractLoop (froms : List Str) (fd : Str) : Option Str :=
  match froms with
  | [] => some fd
  | f :: rest =>
    match rsplitOnce '@' f with
    | none => extractLoop rest fd
    | some (_, domain) =>
      if fd = [] then extractLoop rest domain
      else if fd = domain then extractLoop rest fd
      else none

/-- Short-circuiting `Iterator::any` over closures that may panic:
`none` is a panic, `some b` a normal boolean. -/
def anyO {α : Type} (f : α → Option Bool) : List α → Option Bool
  | [] => some false
  | a :: as =>
    match f a with
    | none => none
    | some true => some true
    | some false => anyO f as

/-- One DKIM alignment closure applied to one output:
`o.result == Pass && p(o.signature.unwrap())`.  Rust's `&&`
short-circuits, so the unwrap (a panic, `none`, when the signature is
absent) is only reached on a passing output. -/
def dkimCheck (p : Signature → Bool) (o : DkimOutput) : Option Bool :=
  if o.result = DkimResult.Pass then o.signature.map p else some false

/-- The relaxed DKIM relation used by `verify_dmarc`:
`d.ends_with(".<from_domain>") || from_domain.ends_with(".<d>")`. -/
def dkimRel (from_domain : Str) (s : Signature) : Bool :=
  strEndsWith s.d ('.' :: from_domain) || strEndsWith from_domain ('.' :: s.d)

/-- The SPF alignment check of `verify_dmarc`, returning the SPF axis
result together with the policy after this step.  The relaxed branch
mirrors the source's operator precedence exactly:
`(aspf == Relaxed && mfd.ends_with(".<fd>")) || fd.ends_with(".<mfd>")`. -/
def spfAlignCheck (dmarc : Dmarc) (from_domain mail_from_domain : Str)
    (spfres : SpfResult) : DmarcResult × Policy :=
  if spfres = SpfResult.Pass then
    if mail_from_domain = from_domain then (DmarcResult.Pass, dmarc.p)
    else if (dmarc.aspf = Alignment.Relaxed ∧
              strEndsWith mail_from_domain ('.' :: from_domain) = true) ∨
            strEndsWith from_domain ('.' :: mail_from_domain) = true then
      (DmarcResult.Pass, dmarc.sp)
    else (DmarcResult.Fail Error.DMARCNotAligned, dmarc.p)
  else (DmarcResult.None, dmarc.p)

/-- The DKIM alignment section of `verify_dmarc` (entered only when some
output passed): returns the DKIM axis result and the final policy, or
`none` if an unwrap panicked.  `pol` is the policy after the SPF step. -/
def dkimSection (dmarc : Dmarc) (from_domain : Str) (outs : List DkimOutput)
    (pol : Policy) : Option (DmarcResult × Policy) :=
  match anyO (dkimCheck fun s => decide (s.d = from_domain)) outs with
  | none => none
  | some true => some (DmarcResult.Pass, pol)
  | some false =>
    match (if dmarc.adkim = Alignment.Relaxed
           then anyO (dkimCheck (dkimRel from_domain)) outs
           else some false) with
    | none => none
    | some true => some (DmarcResult.Pass, dmarc.sp)
    | some false =>
      match anyO (dkimCheck (dkimRel from_domain)) outs with
      | none => none
      | some true => some (DmarcResult.Fail Error.DMARCNotAligned, dmarc.sp)
      | some false => some (DmarcResult.Fail Error.DMARCNotAligned, pol)

/-- The body of `verify_dmarc` once a DMARC record has been found for the
extracted From domain: alignment of both axes and assembly of the
output, ending with `with_record`. -/
def dmarcApply (dmarc : Dmarc) (from_domain : Str) (outs : List DkimOutput)
    (mail_from_domain : Str) (spfres : SpfResult) : Option DmarcOutput :=
  let has_dkim_pass := outs.any fun o => o.result = DkimResult.Pass
  if spfres = SpfResult.Pass ∨ has_dkim_pass = true then
    let sp := spfAlignCheck dmarc from_domain mail_from_domain spfres
    if has_dkim_pass = true then
      match dkimSection dmarc from_domain outs sp.2 with
      | none => none
      | some dk =>
        some { domain := from_domain, policy := dk.2, spf_result := sp.1,
               dkim_result := dk.1, record := some dmarc }
    else
      some { domain := from_domain, policy := sp.2, spf_result := sp.1,
             dkim_result := DmarcResult.None, record := some dmarc }
  else
    some { domain := from_domain, policy := dmarc.p, spf_result := DmarcResult.None,
           dkim_result := DmarcResult.None, record := some dmarc }

/-- The evaluator `Resolver::verify_dmarc`: From-domain extraction, tree walk, then
alignment.  The message is represented by its list of From addresses;
`none` stands for a panic. -/
def verify_dmarc (dns : Dns) (message_from : List Str) (dkim_output : List DkimOutput)
    (mail_from_domain : Str) (spf_output : SpfOutput) : Option DmarcOutput :=
  match extractLoop message_from [] with
  | none => some DmarcOutput.default
  | some from_domain =>
    if from_domain = [] then some DmarcOutput.default
    else
      match (dmarc_tree_walk dns from_domain).1 with
      | Except.ok none => some (DmarcOutput.default.with_domain from_domain)
      | Except.error e =>
        some (((DmarcOutput.default.with_domain from_domain).with_dkim_result
                (DmarcResult.ofError e)).with_spf_result (DmarcResult.ofError e))
      | Except.ok (some dmarc) =>
        dmarcApply dmarc from_domain dkim_output mail_from_domain spf_output.result

/-! ### Report address validation (`Resolver::verify_dmarc_report_address`) -/

/-- The opt-in query name `"{domain}.report.dmarc.{address_domain}."`,
the address domain being the part after the final `@` (empty when
there is no `@`, matching `unwrap_or_default`). -/
def reportQueryName (domain : Str) (uri : Str) : Str :=
  domain ++ str ".report.dmarc." ++ ((rsplitOnce '@' uri).map Prod.snd).getD [] ++ ['.']

/-- The validator `Resolver::verify_dmarc_report_address`: keeps an address when its URI
string ends with the publishing domain or the opt-in lookup succeeds; a
`DNSError` aborts the whole validation with `None`, any other lookup
error just drops the address. -/
def verify_dmarc_report_address (dns : Dns) (domain : Str) :
    List URI → Option (List URI)
  | [] => some []
  | a :: rest =>
    if strEndsWith a.uri domain then
      (verify_dmarc_report_address dns domain rest).map (a :: ·)
    else
      match dns (reportQueryName domain a.uri) with
      | Except.ok _ => (verify_dmarc_report_address dns domain rest).map (a :: ·)
      | Except.error e =>
        if e = Error.DNSError then none
        else verify_dmarc_report_address dns domain rest

/-! ### Specification-side definitions

These follow the words of the spec / claims rather than the source; they
exist only to be compared with the source-derived functions above. -/

/-- Modelled from the spec: the sequence of `x` values the claims describe
for the tree walk — start at the given value, step by "if `x < 5`,
decrement by 1; else set `x = 4`", stop at 0. -/
def specXs (x : Nat) : List Nat :=
  if h : x = 0 then [] else x :: specXs (walkStep x)
termination_by x
decreasing_by simp_wf; simp only [walkStep]; split <;> omega

/-- The prefix of a list up to and including the first element satisfying
`p` (the whole list when none does): "stops on the first successful
lookup". -/
def takeThrough {α : Type} (p : α → Bool) : List α → List α
  | [] => []
  | a :: as => if p a then [a] else a :: takeThrough p as

/-- A DNS function that never reports a transport-level failure: every
lookup either succeeds or fails softly with `DNSRecordNotFound` or
`InvalidRecordType` (the two errors the tree walk continues through). -/
def SoftDns (dns : Dns) : Prop :=
  ∀ q : Str, (∃ d, dns q = Except.ok d) ∨
    dns q = Except.error Error.DNSRecordNotFound ∨
    dns q = Except.error Error.InvalidRecordType

/-- The address `f` extracts to the From-domain `d`: it contains an `@` and
`d` is the part after the final one. -/
def ExtractsTo (f d : Str) : Prop :=
  ∃ l, rsplitOnce '@' f = some (l, d)

/-! ### Concrete inputs used by witnesses and counterexamples -/

/-- A strict-alignment record: `p=reject; sp=quarantine; aspf=s; adkim=s`. -/
def recS : Dmarc :=
  ⟨Policy.Reject, Policy.Quarantine, Alignment.Strict, Alignment.Strict⟩

/-- A relaxed-alignment record: `p=reject; sp=quarantine; aspf=r; adkim=r`. -/
def recR : Dmarc :=
  ⟨Policy.Reject, Policy.Quarantine, Alignment.Relaxed, Alignment.Relaxed⟩

/-- DNS with a single DMARC record at `_dmarc.example.org.`. -/
def dnsOrg (r : Dmarc) : Dns := fun q =>
  if q = str "_dmarc.example.org." then Except.ok r
  else Except.error Error.DNSRecordNotFound

/-- DNS with a single DMARC record at `_dmarc.c.example.org.`. -/
def dnsC (r : Dmarc) : Dns := fun q =>
  if q = str "_dmarc.c.example.org." then Except.ok r
  else Except.error Error.DNSRecordNotFound

/-- DNS with a single DMARC record at `_dmarc.sub.example.org.`. -/
def dnsSub (r : Dmarc) : Dns := fun q =>
  if q = str "_dmarc.sub.example.org." then Except.ok r
  else Except.error Error.DNSRecordNotFound

/-- DNS holding only the report-authorization record
`example.org.report.dmarc.external.org.`. -/
def dnsRep : Dns := fun q =>
  if q = str "example.org.report.dmarc.external.org." then Except.ok recS
  else Except.error Error.DNSRecordNotFound

/-- DNS on which every lookup answers `DNSRecordNotFound`. -/
def dnsNF : Dns := fun _ => Except.error Error.DNSRecordNotFound

/-- DNS on which every lookup fails with a transport error. -/
def dnsHard : Dns := fun _ => Except.error Error.DNSError

/-- A passing DKIM output signed by the given domain. -/
def dkimP (d : String) : DkimOutput := ⟨DkimResult.Pass, some ⟨str d⟩⟩

/-- A report address whose URI merely ends with `example.org` although its
domain part is the unrelated `badexample.org`. -/
def uriBad : URI := ⟨str "dmarc@badexample.org", 0⟩

/-- Report address `dmarc@example.org`. -/
def uriEx : URI := ⟨str "dmarc@example.org", 0⟩

/-- Report address `dmarc@external.org`. -/
def uriExt : URI := ⟨str "dmarc@external.org", 0⟩

/-- Report address `domain@other.org`. -/
def uriOther : URI := ⟨str "domain@other.org", 0⟩

/-- The strict record with its SPF alignment mode relaxed:
`{recS with aspf := Relaxed}`. -/
def recSR : Dmarc :=
  ⟨Policy.Reject, Policy.Quarantine, Alignment.Relaxed, Alignment.Strict⟩

/-- The strict record with its DKIM alignment mode relaxed:
`{recS with adkim := Relaxed}`. -/
def recSDR : Dmarc :=
  ⟨Policy.Reject, Policy.Quarantine, Alignment.Strict, Alignment.Relaxed⟩

/-- DNS with a single DMARC record at `_dmarc.b.c.`. -/
def dnsBC (r : Dmarc) : Dns := fun q =>
  if q = str "_dmarc.b.c." then Except.ok r
  else Except.error Error.DNSRecordNotFound

/-! ### Sanity checks: the six vectors of the crate's `dmarc_verify` test
and the vector of `dmarc_verify_report_address` -/

/-- Strict alignment, everything at `example.org`: both axes pass, policy
`p = reject`. -/
theorem rust_test_strict_pass :
    verify_dmarc (dnsOrg recS) [str "hello@example.org"] [dkimP "example.org"]
      (str "example.org") ⟨SpfResult.Pass, str "example.org"⟩ =
    some ⟨str "example.org", Policy.Reject, DmarcResult.Pass, DmarcResult.Pass, some recS⟩ := by
  decide

/-- Relaxed alignment from a subdomain: both axes pass, policy shifts to
`sp = quarantine`. -/
theorem rust_test_relaxed_pass :
    verify_dmarc (dnsOrg recR) [str "hello@example.org"] [dkimP "subdomain.example.org"]
      (str "subdomain.example.org") ⟨SpfResult.Pass, str "subdomain.example.org"⟩ =
    some ⟨str "example.org", Policy.Quarantine, DmarcResult.Pass, DmarcResult.Pass, some recR⟩ := by
  decide

/-- Strict alignment from a subdomain: both axes fail, policy still shifts
to `sp`. -/
theorem rust_test_strict_fail :
    verify_dmarc (dnsOrg recS) [str "hello@example.org"] [dkimP "subdomain.example.org"]
      (str "subdomain.example.org") ⟨SpfResult.Pass, str "subdomain.example.org"⟩ =
    some ⟨str "example.org", Policy.Quarantine, DmarcResult.Fail Error.DMARCNotAligned,
      DmarcResult.Fail Error.DMARCNotAligned, some recS⟩ := by
  decide

/-- Tree walk from a 5-label domain down to `_dmarc.example.org.`. -/
theorem rust_test_tree_walk :
    verify_dmarc (dnsOrg recS) [str "hello@a.b.c.example.org"] [dkimP "a.b.c.example.org"]
      (str "a.b.c.example.org") ⟨SpfResult.Pass, str "a.b.c.example.org"⟩ =
    some ⟨str "a.b.c.example.org", Policy.Reject, DmarcResult.Pass, DmarcResult.Pass, some recS⟩ := by
  decide

/-- Tree walk stopping at the intermediate record `_dmarc.c.example.org.`,
relaxed alignment against `example.org`. -/
theorem rust_test_tree_walk_intermediate :
    verify_dmarc (dnsC recR) [str "hello@a.b.c.example.org"] [dkimP "example.org"]
      (str "example.org") ⟨SpfResult.Pass, str "example.org"⟩ =
    some ⟨str "a.b.c.example.org", Policy.Quarantine, DmarcResult.Pass, DmarcResult.Pass, some recR⟩ := by
  decide

/-- No mechanism passed: both axes stay `none`, policy is `p`. -/
theorem rust_test_failed_mechanisms :
    verify_dmarc (dnsOrg recS) [str "hello@example.org"]
      [⟨DkimResult.Fail Error.SignatureExpired, some ⟨str "example.org"⟩⟩]
      (str "example.org") ⟨SpfResult.Fail, str "example.org"⟩ =
    some ⟨str "example.org", Policy.Reject, DmarcResult.None, DmarcResult.None, some recS⟩ := by
  decide

/-- Report-address validation keeps the same-domain address and the
externally authorized one, and drops the rest. -/
theorem rust_test_report_address :
    verify_dmarc_report_address dnsRep (str "example.org") [uriEx, uriExt, uriOther] =
      some [uriEx, uriExt] := by
  decide

/-! ### Tree-walk lemmas -/

/-- The step always decreases a positive `x`. -/
theorem walkStep_lt (x : Nat) (hx : x ≠ 0) : walkStep x < x := by
  simp only [walkStep]; split <;> omega

/-- From `x + 1` the step lands at most at `x`. -/
theorem walkStep_le (x : Nat) : walkStep (x + 1) ≤ x := by
  simp only [walkStep]; split <;> omega

/-- The walk loop at `x = 0` stops at once, whatever the fuel. -/
theorem dmarcTreeWalkAux_zero (dns : Dns) (labels : List Str) (fuel : Nat) :
    dmarcTreeWalkAux dns labels fuel 0 = (Except.ok none, []) := by
  cases fuel <;> rfl

/-- Unfolding of the walk loop at a successful lookup. -/
theorem dmarcTreeWalkAux_succ_ok (dns : Dns) (labels : List Str) (f x : Nat) (d : Dmarc)
    (hd : dns (dmarcQueryName labels (x + 1)) = Except.ok d) :
    dmarcTreeWalkAux dns labels (f + 1) (x + 1) =
      (Except.ok (some d), [dmarcQueryName labels (x + 1)]) := by
  simp only [dmarcTreeWalkAux, hd]

/-- Unfolding of the walk loop at a soft lookup failure: the walk
continues with `walkStep x`, recording the query. -/
theorem dmarcTreeWalkAux_succ_soft (dns : Dns) (labels : List Str) (f x : Nat) (e : Error)
    (hd : dns (dmarcQueryName labels (x + 1)) = Except.error e)
    (he : e = Error.DNSRecordNotFound ∨ e = Error.InvalidRecordType) :
    dmarcTreeWalkAux dns labels (f + 1) (x + 1) =
      ((dmarcTreeWalkAux dns labels f (walkStep (x + 1))).1,
        dmarcQueryName labels (x + 1) :: (dmarcTreeWalkAux dns labels f (walkStep (x + 1))).2) := by
  simp only [dmarcTreeWalkAux, hd]
  rw [if_pos he]

/-- Unfolding of the walk loop at a hard lookup failure: the walk aborts
with the error. -/
theorem dmarcTreeWalkAux_succ_hard (dns : Dns) (labels : List Str) (f x : Nat) (e : Error)
    (hd : dns (dmarcQueryName labels (x + 1)) = Except.error e)
    (he : ¬(e = Error.DNSRecordNotFound ∨ e = Error.InvalidRecordType)) :
    dmarcTreeWalkAux dns labels (f + 1) (x + 1) =
      (Except.error e, [dmarcQueryName labels (x + 1)]) := by
  simp only [dmarcTreeWalkAux, hd]
  rw [if_neg he]

/-- The fuel of the walk loop is only a termination device: any two fuels
at least `x` compute the same result. -/
theorem dmarcTreeWalkAux_fuel (dns : Dns) (labels : List Str) :
    ∀ f g x, x ≤ f → x ≤ g →
      dmarcTreeWalkAux dns labels f x = dmarcTreeWalkAux dns labels g x := by
  intro f
  induction f with
  | zero =>
    intro g x hf hg
    have hx : x = 0 := by omega
    subst hx
    rw [dmarcTreeWalkAux_zero, dmarcTreeWalkAux_zero]
  | succ f ih =>
    intro g x hf hg
    cases x with
    | zero => rw [dmarcTreeWalkAux_zero, dmarcTreeWalkAux_zero]
    | succ x =>
      cases g with
      | zero => omega
      | succ g =>
        have hstep := walkStep_le x
        cases hd : dns (dmarcQueryName labels (x + 1)) with
        | ok d => rw [dmarcTreeWalkAux_succ_ok dns labels f x d hd,
            dmarcTreeWalkAux_succ_ok dns labels g x d hd]
        | error e =>
          by_cases he : e = Error.DNSRecordNotFound ∨ e = Error.InvalidRecordType
          · rw [dmarcTreeWalkAux_succ_soft dns labels f x e hd he,
              dmarcTreeWalkAux_succ_soft dns labels g x e hd he,
              ih g (walkStep (x + 1)) (by omega) (by omega)]
          · rw [dmarcTreeWalkAux_succ_hard dns labels f x e hd he,
              dmarcTreeWalkAux_succ_hard dns labels g x e hd he]

/-- The split of a string is never the empty list. -/
theorem splitChar_ne_nil (c : Char) (s : Str) : splitChar c s ≠ [] := by
  cases s with
  | nil => simp [splitChar]
  | cons a as =>
    simp only [splitChar]
    cases h : splitChar c as with
    | nil => simp
    | cons r rs =>
      split
      · simp
      · split <;> simp

/-- Query-count bound for the walk loop: at most `min x 5` lookups. -/
theorem dmarcTreeWalkAux_len (dns : Dns) (labels : List Str) :
    ∀ f x, x ≤ f → ((dmarcTreeWalkAux dns labels f x).2).length ≤ min x 5 := by
  intro f
  induction f with
  | zero =>
    intro x hf
    have hx : x = 0 := by omega
    subst hx
    rw [dmarcTreeWalkAux_zero]
    simp
  | succ f ih =>
    intro x hf
    cases x with
    | zero => rw [dmarcTreeWalkAux_zero]; simp
    | succ x =>
      have hstep := walkStep_le x
      cases hd : dns (dmarcQueryName labels (x + 1)) with
      | ok d =>
        rw [dmarcTreeWalkAux_succ_ok dns labels f x d hd]
        simp
      | error e =>
        by_cases he : e = Error.DNSRecordNotFound ∨ e = Error.InvalidRecordType
        · rw [dmarcTreeWalkAux_succ_soft dns labels f x e hd he]
          have hv := ih (walkStep (x + 1)) (by omega)
          simp only [List.length_cons]
          rcases Nat.lt_or_ge (x + 1) 5 with h5 | h5
          · have hws : walkStep (x + 1) = x := by
              simp only [walkStep]; rw [if_pos h5]; omega
            rw [hws] at hv ⊢
            omega
          · have hws : walkStep (x + 1) = 4 := by
              simp only [walkStep]; rw [if_neg (by omega)]
            rw [hws] at hv ⊢
            omega
        · rw [dmarcTreeWalkAux_succ_hard dns labels f x e hd he]
          simp

/-- C4 helper: the instrumented walk agrees with the query bound at the
entry point. -/
theorem dmarc_tree_walk_len (dns : Dns) (domain : Str) :
    ((dmarc_tree_walk dns domain).2).length ≤ min (splitChar '.' domain).length 5 := by
  simp only [dmarc_tree_walk]
  split
  · simp
  · exact dmarcTreeWalkAux_len dns _ _ _ le_rfl

/-- The queried `x` sequence of the walk loop matches the spec-side
sequence truncated at the first successful lookup, for a DNS map with no
transport errors. -/
theorem dmarcTreeWalkAux_queries (dns : Dns) (labels : List Str) (hs : SoftDns dns) :
    ∀ f x, x ≤ f →
      (dmarcTreeWalkAux dns labels f x).2 =
        (takeThrough (fun y => isOkE (dns (dmarcQueryName labels y))) (specXs x)).map
          (dmarcQueryName labels) := by
  intro f
  induction f with
  | zero =>
    intro x hf
    have hx : x = 0 := by omega
    subst hx
    rw [dmarcTreeWalkAux_zero]
    simp [specXs, takeThrough]
  | succ f ih =>
    intro x hf
    cases x with
    | zero => rw [dmarcTreeWalkAux_zero]; simp [specXs, takeThrough]
    | succ x =>
      have hstep := walkStep_le x
      rw [specXs]
      simp only [Nat.succ_ne_zero, dite_false]
      rcases hs (dmarcQueryName labels (x + 1)) with ⟨d, hd⟩ | hd | hd
      · rw [dmarcTreeWalkAux_succ_ok dns labels f x d hd]
        simp [takeThrough, isOkE, hd]
      · rw [dmarcTreeWalkAux_succ_soft dns labels f x Error.DNSRecordNotFound hd (Or.inl rfl)]
        simp [takeThrough, isOkE, hd, ih (walkStep (x + 1)) (by omega)]
      · rw [dmarcTreeWalkAux_succ_soft dns labels f x Error.InvalidRecordType hd (Or.inr rfl)]
        simp [takeThrough, isOkE, hd, ih (walkStep (x + 1)) (by omega)]

/-- C3.  For every `from_domain` and transport-error-free DNS: when the
domain has at most one label the walk returns `None` without querying;
otherwise the names queried are exactly `_dmarc.<rightmost x labels>.`
for the `x` sequence that starts at `|labels|`, steps by "decrement if
`x < 5`, else jump to 4", and stops at the first successful lookup or at
`x = 0`. -/
theorem c3_tree_walk_queries (dns : Dns) (domain : Str) (hs : SoftDns dns) :
    ((splitChar '.' domain).length ≤ 1 →
      dmarc_tree_walk dns domain = (Except.ok none, [])) ∧
    (1 < (splitChar '.' domain).length →
      (dmarc_tree_walk dns domain).2 =
        (takeThrough (fun y => isOkE (dns (dmarcQueryName (splitChar '.' domain) y)))
          (specXs (splitChar '.' domain).length)).map
          (dmarcQueryName (splitChar '.' domain))) := by
  constructor
  · intro hle
    have hne := splitChar_ne_nil '.' domain
    have h0 : (splitChar '.' domain).length ≠ 0 := by
      simpa [List.length_eq_zero] using hne
    have h1 : (splitChar '.' domain).length = 1 := by omega
    simp [dmarc_tree_walk, h1]
  · intro hgt
    have hne : ¬ (splitChar '.' domain).length = 1 := by omega
    simp only [dmarc_tree_walk]
    rw [if_neg hne]
    exact dmarcTreeWalkAux_queries dns _ hs _ _ le_rfl

/-- Witness for C3 at a six-label domain on an all-`DNSRecordNotFound`
DNS. -/
theorem c3_tree_walk_queries_witness :
    (dmarc_tree_walk dnsNF (str "a.b.c.d.e.f")).2 =
      (takeThrough (fun y => isOkE (dnsNF (dmarcQueryName (splitChar '.' (str "a.b.c.d.e.f")) y)))
        (specXs (splitChar '.' (str "a.b.c.d.e.f")).length)).map
        (dmarcQueryName (splitChar '.' (str "a.b.c.d.e.f"))) :=
  (c3_tree_walk_queries dnsNF (str "a.b.c.d.e.f")
    (fun _ => Or.inr (Or.inl rfl))).2 (by decide)

/-- C4.  The tree walk terminates (it is a total function) and performs at
most `min (|labels|, 5)` DNS queries. -/
theorem c4_tree_walk_query_bound (dns : Dns) (domain : Str) :
    ((dmarc_tree_walk dns domain).2).length ≤ min (splitChar '.' domain).length 5 :=
  dmarc_tree_walk_len dns domain

/-! ### Lemmas about the alignment evaluation -/

/-- A short-circuit `any` over total closures is never a panic. -/
theorem anyO_ne_none {α : Type} (f : α → Option Bool) :
    ∀ l : List α, (∀ a ∈ l, f a ≠ none) → (anyO f l).isSome = true := by
  intro l
  induction l with
  | nil => intro hl; rfl
  | cons a as ih =>
    intro hl
    simp only [anyO]
    cases hf : f a with
    | none => exact absurd hf (hl a (by simp))
    | some b =>
      cases b with
      | true => rfl
      | false => exact ih (fun a ha => hl a (by simp [ha]))

/-- If the short-circuit `any` answered `true`, some element evaluated to
`some true`. -/
theorem anyO_some_true {α : Type} (f : α → Option Bool) :
    ∀ l : List α, anyO f l = some true → ∃ a, a ∈ l ∧ f a = some true := by
  intro l
  induction l with
  | nil => intro hl; exact absurd hl (by simp [anyO])
  | cons a as ih =>
    intro hl
    simp only [anyO] at hl
    cases hf : f a with
    | none => rw [hf] at hl; exact Option.noConfusion hl
    | some b =>
      cases b with
      | true => exact ⟨a, by simp, hf⟩
      | false =>
        rw [hf] at hl
        obtain ⟨x, hx, hfx⟩ := ih hl
        exact ⟨x, by simp [hx], hfx⟩

/-- If the short-circuit `any` answered `false`, every element evaluated to
`some false`. -/
theorem anyO_some_false {α : Type} (f : α → Option Bool) :
    ∀ l : List α, anyO f l = some false → ∀ a ∈ l, f a = some false := by
  intro l
  induction l with
  | nil => intro hl a ha; exact absurd ha (by simp)
  | cons a as ih =>
    intro hl b hb
    simp only [anyO] at hl
    cases hf : f a with
    | none => rw [hf] at hl; exact Option.noConfusion hl
    | some c =>
      cases c with
      | true => rw [hf] at hl; exact Bool.noConfusion (Option.some.inj hl)
      | false =>
        rw [hf] at hl
        rcases List.mem_cons.mp hb with rfl | hb'
        · exact hf
        · exact ih hl b hb'

/-- The alignment closure only panics on a passing output with no
signature. -/
theorem dkimCheck_ne_none (p : Signature → Bool) (o : DkimOutput)
    (h : o.result = DkimResult.Pass → o.signature.isSome = true) :
    dkimCheck p o ≠ none := by
  unfold dkimCheck
  split
  · rename_i hr
    cases hsig : o.signature with
    | none =>
      rw [hsig] at h
      simp at h
      exact absurd hr h
    | some s => simp [hsig]
  · simp

/-- Inversion of a `true` answer of the alignment closure. -/
theorem dkimCheck_some_true (p : Signature → Bool) (o : DkimOutput)
    (h : dkimCheck p o = some true) :
    o.result = DkimResult.Pass ∧ ∃ s, o.signature = some s ∧ p s = true := by
  unfold dkimCheck at h
  split at h
  · rename_i hr
    cases hsig : o.signature with
    | none => rw [hsig] at h; exact Option.noConfusion h
    | some s =>
      rw [hsig] at h
      exact ⟨hr, s, rfl, Option.some.inj h⟩
  · exact Bool.noConfusion (Option.some.inj h)

/-- Introduction of a `true` answer of the alignment closure. -/
theorem dkimCheck_eq_true (p : Signature → Bool) (o : DkimOutput) (s : Signature)
    (hr : o.result = DkimResult.Pass) (hs : o.signature = some s) (hp : p s = true) :
    dkimCheck p o = some true := by
  simp [dkimCheck, hr, hs, hp]

/-- The DKIM section never panics when every passing output carries a
signature. -/
theorem dkimSection_isSome (dmarc : Dmarc) (fd : Str) (outs : List DkimOutput) (pol : Policy)
    (h : ∀ o ∈ outs, o.result = DkimResult.Pass → o.signature.isSome = true) :
    (dkimSection dmarc fd outs pol).isSome = true := by
  have h1 : ∀ p : Signature → Bool, (anyO (dkimCheck p) outs).isSome = true :=
    fun p => anyO_ne_none _ _ (fun o ho => dkimCheck_ne_none p o (h o ho))
  unfold dkimSection
  obtain ⟨b1, hb1⟩ := Option.isSome_iff_exists.mp (h1 _)
  rw [hb1]
  cases b1 with
  | true => rfl
  | false =>
    by_cases hr : dmarc.adkim = Alignment.Relaxed
    · rw [if_pos hr]
      obtain ⟨b2, hb2⟩ := Option.isSome_iff_exists.mp (h1 (dkimRel fd))
      rw [hb2]
      cases b2 <;> rfl
    · rw [if_neg hr]
      obtain ⟨b3, hb3⟩ := Option.isSome_iff_exists.mp (h1 (dkimRel fd))
      rw [hb3]
      cases b3 <;> rfl

/-- Exhaustive description of a non-panicking run of the DKIM section in
terms of the two `any` probes: exact match gives `Pass` with the incoming
policy; a relaxed subdomain match gives `Pass` with `sp`; a failed
alignment gives `Fail` with `sp` exactly when some passing signature is in
the subdomain relation. -/
theorem dkimSection_spec (r' : Dmarc) (fd : Str) (outs : List DkimOutput) (pol : Policy)
    (dk : DmarcResult × Policy) (h : dkimSection r' fd outs pol = some dk) :
    (anyO (dkimCheck fun s => decide (s.d = fd)) outs = some true ∧
      dk = (DmarcResult.Pass, pol)) ∨
    (r'.adkim = Alignment.Relaxed ∧
      anyO (dkimCheck fun s => decide (s.d = fd)) outs = some false ∧
      anyO (dkimCheck (dkimRel fd)) outs = some true ∧
      dk = (DmarcResult.Pass, r'.sp)) ∨
    (anyO (dkimCheck fun s => decide (s.d = fd)) outs = some false ∧
      anyO (dkimCheck (dkimRel fd)) outs = some true ∧
      dk = (DmarcResult.Fail Error.DMARCNotAligned, r'.sp)) ∨
    (anyO (dkimCheck fun s => decide (s.d = fd)) outs = some false ∧
      anyO (dkimCheck (dkimRel fd)) outs = some false ∧
      dk = (DmarcResult.Fail Error.DMARCNotAligned, pol)) := by
  unfold dkimSection at h
  cases hc1 : anyO (dkimCheck fun s => decide (s.d = fd)) outs with
  | none => rw [hc1] at h; exact Option.noConfusion h
  | some b1 =>
    rw [hc1] at h
    cases b1 with
    | true => exact Or.inl ⟨rfl, (Option.some.inj h).symm⟩
    | false =>
      by_cases hr : r'.adkim = Alignment.Relaxed
      · rw [if_pos hr] at h
        cases hc3 : anyO (dkimCheck (dkimRel fd)) outs with
        | none => rw [hc3] at h; exact Option.noConfusion h
        | some b3 =>
          rw [hc3] at h
          cases b3 with
          | true => exact Or.inr (Or.inl ⟨hr, rfl, rfl, (Option.some.inj h).symm⟩)
          | false => exact Or.inr (Or.inr (Or.inr ⟨rfl, rfl, (Option.some.inj h).symm⟩))
      · rw [if_neg hr] at h
        cases hc3 : anyO (dkimCheck (dkimRel fd)) outs with
        | none => rw [hc3] at h; exact Option.noConfusion h
        | some b3 =>
          rw [hc3] at h
          cases b3 with
          | true => exact Or.inr (Or.inr (Or.inl ⟨rfl, rfl, (Option.some.inj h).symm⟩))
          | false => exact Or.inr (Or.inr (Or.inr ⟨rfl, rfl, (Option.some.inj h).symm⟩))

/-- When some passing signature matches `from_domain` exactly, the DKIM
section passes and keeps the incoming policy. -/
theorem dkimSection_c1_true (r' : Dmarc) (fd : Str) (outs : List DkimOutput) (pol : Policy)
    (hc1 : anyO (dkimCheck fun s => decide (s.d = fd)) outs = some true) :
    dkimSection r' fd outs pol = some (DmarcResult.Pass, pol) := by
  unfold dkimSection
  rw [hc1]

/-- The alignment body never panics when every passing output carries a
signature. -/
theorem dmarcApply_isSome (dmarc : Dmarc) (fd : Str) (outs : List DkimOutput)
    (mfd : Str) (s : SpfResult)
    (h : ∀ o ∈ outs, o.result = DkimResult.Pass → o.signature.isSome = true) :
    (dmarcApply dmarc fd outs mfd s).isSome = true := by
  simp only [dmarcApply]
  split
  · split
    · obtain ⟨dk, hdk⟩ :=
        Option.isSome_iff_exists.mp (dkimSection_isSome dmarc fd outs _ h)
      rw [hdk]
      rfl
    · rfl
  · rfl

/-- Exhaustive description of a non-panicking run of the alignment body:
either no mechanism passed and both axes stay `none` under policy `p`, or
only SPF passed, or the DKIM section ran. -/
theorem dmarcApply_some (r' : Dmarc) (fd : Str) (outs : List DkimOutput) (mfd : Str)
    (s : SpfResult) (out : DmarcOutput) (h : dmarcApply r' fd outs mfd s = some out) :
    (¬(s = SpfResult.Pass ∨ (outs.any fun o => o.result = DkimResult.Pass) = true) ∧
      out = { domain := fd, policy := r'.p, spf_result := DmarcResult.None,
              dkim_result := DmarcResult.None, record := some r' }) ∨
    ((s = SpfResult.Pass ∨ (outs.any fun o => o.result = DkimResult.Pass) = true) ∧
      (outs.any fun o => o.result = DkimResult.Pass) = false ∧
      out = { domain := fd, policy := (spfAlignCheck r' fd mfd s).2,
              spf_result := (spfAlignCheck r' fd mfd s).1,
              dkim_result := DmarcResult.None, record := some r' }) ∨
    ((outs.any fun o => o.result = DkimResult.Pass) = true ∧
      ∃ dk, dkimSection r' fd outs (spfAlignCheck r' fd mfd s).2 = some dk ∧
        out = { domain := fd, policy := dk.2,
                spf_result := (spfAlignCheck r' fd mfd s).1,
                dkim_result := dk.1, record := some r' }) := by
  simp only [dmarcApply] at h
  split at h
  · rename_i hguard
    split at h
    · rename_i hpass
      cases hdk : dkimSection r' fd outs (spfAlignCheck r' fd mfd s).2 with
      | none => rw [hdk] at h; exact Option.noConfusion h
      | some dk =>
        rw [hdk] at h
        exact Or.inr (Or.inr ⟨hpass, dk, rfl, (Option.some.inj h).symm⟩)
    · rename_i hnp
      exact Or.inr (Or.inl ⟨hguard, Bool.eq_false_iff.mpr hnp, (Option.some.inj h).symm⟩)
  · rename_i hguard
    exact Or.inl ⟨hguard, (Option.some.inj h).symm⟩

/-- Unfolding of `verify_dmarc` when the From extraction hits the multi-domain
exemption. -/
theorem verify_dmarc_extract_none (dns : Dns) (msg : List Str) (outs : List DkimOutput)
    (mfd : Str) (spf : SpfOutput) (hx : extractLoop msg [] = none) :
    verify_dmarc dns msg outs mfd spf = some DmarcOutput.default := by
  simp only [verify_dmarc, hx]

/-- Unfolding of `verify_dmarc` when the extracted From domain is empty. -/
theorem verify_dmarc_extract_empty (dns : Dns) (msg : List Str) (outs : List DkimOutput)
    (mfd : Str) (spf : SpfOutput) (fd : Str) (hx : extractLoop msg [] = some fd)
    (hemp : fd = []) :
    verify_dmarc dns msg outs mfd spf = some DmarcOutput.default := by
  simp only [verify_dmarc, hx]
  rw [if_pos hemp]

/-- Unfolding of `verify_dmarc` after a nonempty From domain was extracted: the result
is decided by the tree walk. -/
theorem verify_dmarc_unfold (dns : Dns) (msg : List Str) (outs : List DkimOutput)
    (mfd : Str) (spf : SpfOutput) (fd : Str) (hx : extractLoop msg [] = some fd)
    (hne : fd ≠ []) :
    verify_dmarc dns msg outs mfd spf =
      (match (dmarc_tree_walk dns fd).1 with
       | Except.ok none => some (DmarcOutput.default.with_domain fd)
       | Except.error e =>
         some (((DmarcOutput.default.with_domain fd).with_dkim_result
                 (DmarcResult.ofError e)).with_spf_result (DmarcResult.ofError e))
       | Except.ok (some dmarc) => dmarcApply dmarc fd outs mfd spf.result) := by
  simp only [verify_dmarc, hx]
  rw [if_neg hne]

/-- Unfolding of `verify_dmarc` once the walk finds a record: the alignment body runs. -/
theorem verify_dmarc_found (dns : Dns) (msg : List Str) (outs : List DkimOutput)
    (mfd : Str) (spf : SpfOutput) (fd : Str) (r : Dmarc)
    (hx : extractLoop msg [] = some fd) (hne : fd ≠ [])
    (hw : (dmarc_tree_walk dns fd).1 = Except.ok (some r)) :
    verify_dmarc dns msg outs mfd spf = dmarcApply r fd outs mfd spf.result := by
  rw [verify_dmarc_unfold dns msg outs mfd spf fd hx hne, hw]

/-! ### C10: absence of panics -/

/-- C10.  `verify_dmarc` never panics (is `some`) provided every passing
DKIM output carries a signature: the `unwrap`s in the alignment closures
are guarded by `result == Pass`. -/
theorem c10_no_panic (dns : Dns) (message_from : List Str) (outs : List DkimOutput)
    (mfd : Str) (spf : SpfOutput)
    (h : ∀ o ∈ outs, o.result = DkimResult.Pass → o.signature.isSome = true) :
    (verify_dmarc dns message_from outs mfd spf).isSome = true := by
  cases hx : extractLoop message_from [] with
  | none => rw [verify_dmarc_extract_none dns message_from outs mfd spf hx]; rfl
  | some fd =>
    by_cases hne : fd = []
    · rw [verify_dmarc_extract_empty dns message_from outs mfd spf fd hx hne]; rfl
    · rw [verify_dmarc_unfold dns message_from outs mfd spf fd hx hne]
      cases hw : (dmarc_tree_walk dns fd).1 with
      | error e => rfl
      | ok od =>
        cases od with
        | none => rfl
        | some dmarc => exact dmarcApply_isSome dmarc fd outs mfd spf.result h

/-- Witness for C10: a passing output with a signature, plus a
signature-less failing output, on the strict record. -/
theorem c10_no_panic_witness :
    (verify_dmarc (dnsOrg recS) [str "hello@example.org"]
      [dkimP "example.org", ⟨DkimResult.None, none⟩]
      (str "example.org") ⟨SpfResult.Pass, str "example.org"⟩).isSome = true :=
  c10_no_panic (dnsOrg recS) [str "hello@example.org"]
    [dkimP "example.org", ⟨DkimResult.None, none⟩]
    (str "example.org") ⟨SpfResult.Pass, str "example.org"⟩ (by decide)

/-! ### C7: no mechanism passed -/

/-- C7.  When a record is found, SPF did not pass and no DKIM output
passed, both axis results are `none` and the policy is the record's `p`. -/
theorem c7_no_auth_output (dns : Dns) (msg : List Str) (outs : List DkimOutput)
    (mfd : Str) (spf : SpfOutput) (fd : Str) (r : Dmarc)
    (hx : extractLoop msg [] = some fd) (hne : fd ≠ [])
    (hwalk : (dmarc_tree_walk dns fd).1 = Except.ok (some r))
    (hspf : spf.result ≠ SpfResult.Pass)
    (hdkim : ∀ o ∈ outs, o.result ≠ DkimResult.Pass) :
    verify_dmarc dns msg outs mfd spf =
      some { domain := fd, policy := r.p, spf_result := DmarcResult.None,
             dkim_result := DmarcResult.None, record := some r } := by
  have hpass : (outs.any fun o => o.result = DkimResult.Pass) = false := by
    rw [List.any_eq_false]
    intro o ho
    simp [hdkim o ho]
  rw [verify_dmarc_found dns msg outs mfd spf fd r hx hne hwalk]
  simp only [dmarcApply]
  rw [if_neg]
  rintro (hc | hc)
  · exact hspf hc
  · rw [hpass] at hc
    exact Bool.noConfusion hc

/-- Witness for C7: SPF failed and the only DKIM output failed. -/
theorem c7_no_auth_output_witness :
    verify_dmarc (dnsOrg recS) [str "hello@example.org"]
      [⟨DkimResult.Fail Error.SignatureExpired, some ⟨str "example.org"⟩⟩]
      (str "example.org") ⟨SpfResult.Fail, str "example.org"⟩ =
      some { domain := str "example.org", policy := recS.p, spf_result := DmarcResult.None,
             dkim_result := DmarcResult.None, record := some recS } :=
  c7_no_auth_output (dnsOrg recS) [str "hello@example.org"]
    [⟨DkimResult.Fail Error.SignatureExpired, some ⟨str "example.org"⟩⟩]
    (str "example.org") ⟨SpfResult.Fail, str "example.org"⟩ (str "example.org") recS
    (by decide) (by decide) rfl (by decide) (by decide)

/-! ### C9: strict alignment implies relaxed alignment -/

/-- The SPF alignment check only reads `aspf`, `p` and `sp`. -/
theorem spfAlignCheck_congr (d1 d2 : Dmarc) (h1 : d1.aspf = d2.aspf) (h2 : d1.p = d2.p)
    (h3 : d1.sp = d2.sp) (fd mfd : Str) (s : SpfResult) :
    spfAlignCheck d1 fd mfd s = spfAlignCheck d2 fd mfd s := by
  simp only [spfAlignCheck, h1, h2, h3]

/-- The DKIM section only reads `adkim` and `sp`. -/
theorem dkimSection_congr (d1 d2 : Dmarc) (h1 : d1.adkim = d2.adkim) (h2 : d1.sp = d2.sp)
    (fd : Str) (outs : List DkimOutput) (pol : Policy) :
    dkimSection d1 fd outs pol = dkimSection d2 fd outs pol := by
  simp only [dkimSection, h1, h2]

/-- If the SPF alignment check passes in strict mode, it computes the very
same pair in relaxed mode: a strict pass happens on equality or (through
the unparenthesized disjunct) on `from_domain` ending in
`.<mail_from_domain>`, and both conditions select the same branch in
relaxed mode. -/
theorem spfAlignCheck_strict_pass_eq (r : Dmarc) (fd mfd : Str) (s : SpfResult)
    (h : (spfAlignCheck { r with aspf := Alignment.Strict } fd mfd s).1 = DmarcResult.Pass) :
    spfAlignCheck { r with aspf := Alignment.Strict } fd mfd s =
      spfAlignCheck { r with aspf := Alignment.Relaxed } fd mfd s := by
  by_cases hs : s = SpfResult.Pass
  · by_cases hmfd : mfd = fd
    · simp [spfAlignCheck, hs, hmfd]
    · by_cases hend : strEndsWith fd ('.' :: mfd) = true
      · simp [spfAlignCheck, hs, hmfd, hend]
      · exfalso
        simp [spfAlignCheck, hs, hmfd, hend] at h
  · simp [spfAlignCheck, hs]

/-- Changing `aspf` does not change the SPF axis of the alignment body
when the SPF check computes the same pair (the outputs still differ in the
embedded record). -/
theorem dmarcApply_aspf_spf_result (r : Dmarc) (fd : Str) (outs : List DkimOutput) (mfd : Str)
    (s : SpfResult)
    (heq : spfAlignCheck { r with aspf := Alignment.Strict } fd mfd s =
           spfAlignCheck { r with aspf := Alignment.Relaxed } fd mfd s) :
    (dmarcApply { r with aspf := Alignment.Strict } fd outs mfd s).map DmarcOutput.spf_result =
      (dmarcApply { r with aspf := Alignment.Relaxed } fd outs mfd s).map
        DmarcOutput.spf_result := by
  simp only [dmarcApply, heq,
    dkimSection_congr { r with aspf := Alignment.Strict } { r with aspf := Alignment.Relaxed }
      rfl rfl fd outs]
  split
  · split
    · cases dkimSection { r with aspf := Alignment.Relaxed } fd outs
        (spfAlignCheck { r with aspf := Alignment.Relaxed } fd mfd s).2 with
      | none => rfl
      | some dk => rfl
    · rfl
  · rfl

/-- A `Pass` on the SPF axis of the assembled output comes from the SPF
alignment check. -/
theorem dmarcApply_spf_result (r' : Dmarc) (fd : Str) (outs : List DkimOutput) (mfd : Str)
    (s : SpfResult) (out : DmarcOutput) (h : dmarcApply r' fd outs mfd s = some out)
    (hp : out.spf_result = DmarcResult.Pass) :
    (spfAlignCheck r' fd mfd s).1 = DmarcResult.Pass := by
  rcases dmarcApply_some r' fd outs mfd s out h with ⟨_, rfl⟩ | ⟨_, _, rfl⟩ | ⟨_, dk, _, rfl⟩
  · simp at hp
  · exact hp
  · exact hp

/-- C9.  Fixing the message, DKIM outputs, mail-from domain and SPF
output: if an axis yields `Pass` under a record whose alignment mode for
that axis is strict, it also yields `Pass` under the record with that mode
relaxed (the record being what the tree walk returns on the respective
DNS). -/
theorem c9_strict_implies_relaxed (dnsS dnsR : Dns) (msg : List Str)
    (outs : List DkimOutput) (mfd : Str) (spf : SpfOutput) (fd : Str) (r : Dmarc)
    (hx : extractLoop msg [] = some fd) (hne : fd ≠ []) :
    ((dmarc_tree_walk dnsS fd).1 = Except.ok (some { r with aspf := Alignment.Strict }) →
      (dmarc_tree_walk dnsR fd).1 = Except.ok (some { r with aspf := Alignment.Relaxed }) →
      (verify_dmarc dnsS msg outs mfd spf).map DmarcOutput.spf_result = some DmarcResult.Pass →
      (verify_dmarc dnsR msg outs mfd spf).map DmarcOutput.spf_result = some DmarcResult.Pass) ∧
    ((dmarc_tree_walk dnsS fd).1 = Except.ok (some { r with adkim := Alignment.Strict }) →
      (dmarc_tree_walk dnsR fd).1 = Except.ok (some { r with adkim := Alignment.Relaxed }) →
      (verify_dmarc dnsS msg outs mfd spf).map DmarcOutput.dkim_result = some DmarcResult.Pass →
      (verify_dmarc dnsR msg outs mfd spf).map DmarcOutput.dkim_result = some DmarcResult.Pass) := by
  constructor
  · intro hw1 hw2 hS
    rw [verify_dmarc_found dnsS msg outs mfd spf fd _ hx hne hw1] at hS
    rw [verify_dmarc_found dnsR msg outs mfd spf fd _ hx hne hw2]
    obtain ⟨out, hout, hpass⟩ : ∃ out,
        dmarcApply { r with aspf := Alignment.Strict } fd outs mfd spf.result = some out ∧
          out.spf_result = DmarcResult.Pass := by
      cases ha : dmarcApply { r with aspf := Alignment.Strict } fd outs mfd spf.result with
      | none => rw [ha] at hS; exact Option.noConfusion hS
      | some o =>
        rw [ha] at hS
        exact ⟨o, rfl, Option.some.inj hS⟩
    have hsp := dmarcApply_spf_result _ fd outs mfd spf.result out hout hpass
    have heq := spfAlignCheck_strict_pass_eq r fd mfd spf.result hsp
    rw [← dmarcApply_aspf_spf_result r fd outs mfd spf.result heq, hout]
    simp [hpass]
  · intro hw1 hw2 hS
    rw [verify_dmarc_found dnsS msg outs mfd spf fd _ hx hne hw1] at hS
    rw [verify_dmarc_found dnsR msg outs mfd spf fd _ hx hne hw2]
    obtain ⟨out, hout, hpass⟩ : ∃ out,
        dmarcApply { r with adkim := Alignment.Strict } fd outs mfd spf.result = some out ∧
          out.dkim_result = DmarcResult.Pass := by
      cases ha : dmarcApply { r with adkim := Alignment.Strict } fd outs mfd spf.result with
      | none => rw [ha] at hS; exact Option.noConfusion hS
      | some o =>
        rw [ha] at hS
        exact ⟨o, rfl, Option.some.inj hS⟩
    rcases dmarcApply_some _ fd outs mfd spf.result out hout with
      ⟨_, rfl⟩ | ⟨_, _, rfl⟩ | ⟨hp, dk, hdk, rfl⟩
    · simp at hpass
    · simp at hpass
    · rcases dkimSection_spec _ fd outs _ dk hdk with
        ⟨hc1, rfl⟩ | ⟨hradkim, _, _, _⟩ | ⟨_, _, rfl⟩ | ⟨_, _, rfl⟩
      · have hsec := dkimSection_c1_true { r with adkim := Alignment.Relaxed } fd outs
          ((spfAlignCheck { r with adkim := Alignment.Relaxed } fd mfd spf.result).2) hc1
        simp only [dmarcApply]
        rw [if_pos (Or.inr hp), if_pos hp, hsec]
        rfl
      · simp at hradkim
      · simp at hpass
      · simp at hpass

/-- Witness for C9 (SPF axis): mail-from equals the From domain, so the
strict record passes, and so does its relaxed sibling. -/
theorem c9_strict_implies_relaxed_witness :
    (verify_dmarc (dnsOrg recSR) [str "hello@example.org"] [] (str "example.org")
        ⟨SpfResult.Pass, str "example.org"⟩).map DmarcOutput.spf_result =
      some DmarcResult.Pass :=
  (c9_strict_implies_relaxed (dnsOrg recS) (dnsOrg recSR) [str "hello@example.org"] []
    (str "example.org") ⟨SpfResult.Pass, str "example.org"⟩ (str "example.org") recS
    (by decide) (by decide)).1 rfl rfl (by decide)

/-! ### C5: the subdomain relation shifts the policy to `sp` -/

/-- C5.  When a record `r` was found and DKIM alignment either passed
without any passing signature matching the From domain exactly, or failed
while some passing signature stands in the subdomain relation with the
From domain, the returned policy is `r.sp`. -/
theorem c5_subdomain_policy_shift (dns : Dns) (msg : List Str) (outs : List DkimOutput)
    (mfd : Str) (spf : SpfOutput) (fd : Str) (r : Dmarc) (out : DmarcOutput)
    (hx : extractLoop msg [] = some fd) (hne : fd ≠ [])
    (hwalk : (dmarc_tree_walk dns fd).1 = Except.ok (some r))
    (hout : verify_dmarc dns msg outs mfd spf = some out)
    (halign :
      (out.dkim_result = DmarcResult.Pass ∧
        ¬ ∃ o ∈ outs, o.result = DkimResult.Pass ∧
          ∃ s, o.signature = some s ∧ s.d = fd) ∨
      (out.dkim_result = DmarcResult.Fail Error.DMARCNotAligned ∧
        ∃ o ∈ outs, o.result = DkimResult.Pass ∧
          ∃ s, o.signature = some s ∧ dkimRel fd s = true)) :
    out.policy = r.sp := by
  rw [verify_dmarc_found dns msg outs mfd spf fd r hx hne hwalk] at hout
  rcases dmarcApply_some r fd outs mfd spf.result out hout with
    ⟨_, rfl⟩ | ⟨_, _, rfl⟩ | ⟨_, dk, hdk, rfl⟩
  · rcases halign with ⟨hP, _⟩ | ⟨hP, _⟩ <;> simp at hP
  · rcases halign with ⟨hP, _⟩ | ⟨hP, _⟩ <;> simp at hP
  · rcases dkimSection_spec r fd outs _ dk hdk with
      ⟨hc1, rfl⟩ | ⟨_, _, _, rfl⟩ | ⟨_, _, rfl⟩ | ⟨hc1, hc3, rfl⟩
    · rcases halign with ⟨_, hnex⟩ | ⟨hP, _⟩
      · exfalso
        obtain ⟨o, ho, hco⟩ := anyO_some_true _ _ hc1
        obtain ⟨hres, s, hsig, hps⟩ := dkimCheck_some_true _ _ hco
        exact hnex ⟨o, ho, hres, s, hsig, of_decide_eq_true hps⟩
      · simp at hP
    · rfl
    · rfl
    · rcases halign with ⟨hP, _⟩ | ⟨_, hex⟩
      · simp at hP
      · exfalso
        obtain ⟨o, ho, hres, s, hsig, hrel⟩ := hex
        have hall := anyO_some_false _ _ hc3 o ho
        rw [dkimCheck_eq_true (dkimRel fd) o s hres hsig hrel] at hall
        exact Bool.noConfusion (Option.some.inj hall)

/-- Witness for C5: a strict record, a single passing signature from a
subdomain — DKIM alignment fails, yet the policy shifts to `sp`. -/
theorem c5_subdomain_policy_shift_witness :
    DmarcOutput.policy
      ⟨str "example.org", Policy.Quarantine, DmarcResult.None,
        DmarcResult.Fail Error.DMARCNotAligned, some recS⟩ = recS.sp :=
  c5_subdomain_policy_shift (dnsOrg recS) [str "hello@example.org"]
    [dkimP "sub.example.org"] [] ⟨SpfResult.Fail, []⟩ (str "example.org") recS
    ⟨str "example.org", Policy.Quarantine, DmarcResult.None,
      DmarcResult.Fail Error.DMARCNotAligned, some recS⟩
    (by decide) (by decide) rfl (by decide)
    (Or.inr ⟨by decide, dkimP "sub.example.org", by decide, by decide,
      ⟨str "sub.example.org"⟩, rfl, by decide⟩)

/-! ### C1: SPF alignment in strict mode (operator-precedence slip) -/

/-- C1 (failing input).  With `aspf = strict`, SPF `pass`,
`mail_from_domain = example.org` and `from_domain = sub.example.org`
(unequal), the code returns `spf_result = Pass` (and shifts the policy to
`sp`) because the unparenthesized
`aspf == Relaxed && mfd.ends_with(...) || fd.ends_with(...)` applies its
second disjunct even in strict mode; the claim (and the spec) demand
`Fail(DMARCNotAligned)` here. -/
theorem c1_spf_strict_precedence_bug :
    recS.aspf = Alignment.Strict ∧
    str "example.org" ≠ str "sub.example.org" ∧
    (verify_dmarc (dnsSub recS) [str "hello@sub.example.org"] [] (str "example.org")
        ⟨SpfResult.Pass, str "example.org"⟩).map DmarcOutput.spf_result =
      some DmarcResult.Pass ∧
    (verify_dmarc (dnsSub recS) [str "hello@sub.example.org"] [] (str "example.org")
        ⟨SpfResult.Pass, str "example.org"⟩).map DmarcOutput.policy =
      some recS.sp := by
  decide

/-! ### C8: error handling of the report-address validation -/

/-- C8.  A transport error (`DNSError`) in an opt-in lookup aborts the
whole validation with `None`; a `DNSRecordNotFound` or
`InvalidRecordType` only rejects that address and the validation
continues with the remaining ones. -/
theorem c8_report_address_errors (dns : Dns) (domain : Str) (addrs rest : List URI) (a : URI) :
    (a ∈ addrs → strEndsWith a.uri domain = false →
      dns (reportQueryName domain a.uri) = Except.error Error.DNSError →
      verify_dmarc_report_address dns domain addrs = none) ∧
    (strEndsWith a.uri domain = false →
      (dns (reportQueryName domain a.uri) = Except.error Error.DNSRecordNotFound ∨
        dns (reportQueryName domain a.uri) = Except.error Error.InvalidRecordType) →
      verify_dmarc_report_address dns domain (a :: rest) =
        verify_dmarc_report_address dns domain rest) := by
  constructor
  · induction addrs with
    | nil => intro ha _ _; exact absurd ha (by simp)
    | cons b bs ih =>
      intro ha hend herr
      rcases List.mem_cons.mp ha with rfl | ha'
      · simp [verify_dmarc_report_address, hend, herr]
      · have hbs := ih ha' hend herr
        simp only [verify_dmarc_report_address]
        split
        · rw [hbs]; rfl
        · cases hdb : dns (reportQueryName domain b.uri) with
          | ok d => rw [hbs]; rfl
          | error e =>
            by_cases hde : e = Error.DNSError
            · simp [hde]
            · simp [hde, hbs]
  · intro hend hor
    simp only [verify_dmarc_report_address]
    rcases hor with h1 | h1 <;> simp [hend, h1]

/-- Witness for C8: part one at a transport-failing DNS, after applying
the conjunction at a concrete address list. -/
theorem c8_report_address_errors_witness :
    verify_dmarc_report_address dnsHard (str "example.org") [uriOther] = none :=
  (c8_report_address_errors dnsHard (str "example.org") [uriOther] [] uriOther).1
    (by decide) (by decide) rfl

/-! ### C2: report-address acceptance -/

/-- C2 (counterexample).  `dmarc@badexample.org` is accepted for publishing
domain `example.org` on an empty DNS although its domain part
`badexample.org` is neither `example.org` nor a subdomain of it and the
opt-in lookup finds nothing: the code merely tests `uri.ends_with(domain)`
on the whole address string. -/
theorem c2_report_address_counterexample :
    verify_dmarc_report_address dnsNF (str "example.org") [uriBad] = some [uriBad] ∧
    ((rsplitOnce '@' uriBad.uri).map Prod.snd).getD [] ≠ str "example.org" ∧
    strEndsWith (((rsplitOnce '@' uriBad.uri).map Prod.snd).getD [])
      ('.' :: str "example.org") = false ∧
    isOkE (dnsNF (reportQueryName (str "example.org") uriBad.uri)) = false := by
  decide

/-- C2 (amended).  When the validation returns `Some`, an address is in
the result iff it is one of the inputs and its full URI string ends with
the publishing domain, or its opt-in lookup succeeds. -/
theorem c2_report_address_membership (dns : Dns) (domain : Str) :
    ∀ (addrs res : List URI), verify_dmarc_report_address dns domain addrs = some res →
      ∀ a : URI, a ∈ res ↔ a ∈ addrs ∧ (strEndsWith a.uri domain = true ∨
        isOkE (dns (reportQueryName domain a.uri)) = true) := by
  intro addrs
  induction addrs with
  | nil =>
    intro res h a
    obtain rfl : ([] : List URI) = res := Option.some.inj h
    simp
  | cons b bs ih =>
    intro res h a
    simp only [verify_dmarc_report_address] at h
    by_cases hend : strEndsWith b.uri domain = true
    · rw [if_pos hend] at h
      cases hbs : verify_dmarc_report_address dns domain bs with
      | none => rw [hbs] at h; exact Option.noConfusion h
      | some res' =>
        rw [hbs] at h
        obtain rfl : b :: res' = res := Option.some.inj h
        have hiff := ih res' hbs a
        by_cases hab : a = b
        · subst hab
          constructor
          · intro _; exact ⟨by simp, Or.inl hend⟩
          · intro _; simp
        · simp only [List.mem_cons]
          constructor
          · rintro (rfl | hr)
            · exact absurd rfl hab
            · have hx := hiff.mp hr
              exact ⟨Or.inr hx.1, hx.2⟩
          · rintro ⟨rfl | hmem, hcond⟩
            · exact absurd rfl hab
            · exact Or.inr (hiff.mpr ⟨hmem, hcond⟩)
    · rw [if_neg hend] at h
      cases hdb : dns (reportQueryName domain b.uri) with
      | ok d =>
        rw [hdb] at h
        cases hbs : verify_dmarc_report_address dns domain bs with
        | none => rw [hbs] at h; exact Option.noConfusion h
        | some res' =>
          rw [hbs] at h
          obtain rfl : b :: res' = res := Option.some.inj h
          have hiff := ih res' hbs a
          by_cases hab : a = b
          · subst hab
            constructor
            · intro _; exact ⟨by simp, Or.inr (by rw [hdb]; rfl)⟩
            · intro _; simp
          · simp only [List.mem_cons]
            constructor
            · rintro (rfl | hr)
              · exact absurd rfl hab
              · have hx := hiff.mp hr
                exact ⟨Or.inr hx.1, hx.2⟩
            · rintro ⟨rfl | hmem, hcond⟩
              · exact absurd rfl hab
              · exact Or.inr (hiff.mpr ⟨hmem, hcond⟩)
      | error e =>
        simp only [hdb] at h
        by_cases hde : e = Error.DNSError
        · rw [if_pos hde] at h
          exact Option.noConfusion h
        · rw [if_neg hde] at h
          have hiff := ih res h a
          by_cases hab : a = b
          · subst hab
            constructor
            · intro hr
              have hx := hiff.mp hr
              exact ⟨by simp [hx.1], hx.2⟩
            · rintro ⟨_, hcond⟩
              rcases hcond with hc | hc
              · exact absurd hc hend
              · rw [hdb] at hc
                exact Bool.noConfusion hc
          · rw [hiff]
            simp only [List.mem_cons]
            constructor
            · rintro ⟨hmem, hcond⟩
              exact ⟨Or.inr hmem, hcond⟩
            · rintro ⟨rfl | hmem, hcond⟩
              · exact absurd rfl hab
              · exact ⟨hmem, hcond⟩

/-- Witness for the amended C2 at the vector of the crate's report-address
test. -/
theorem c2_report_address_membership_witness :
    uriExt ∈ [uriEx, uriExt] ↔
      uriExt ∈ [uriEx, uriExt, uriOther] ∧
        (strEndsWith uriExt.uri (str "example.org") = true ∨
          isOkE (dnsRep (reportQueryName (str "example.org") uriExt.uri)) = true) :=
  c2_report_address_membership dnsRep (str "example.org") [uriEx, uriExt, uriOther]
    [uriEx, uriExt] (by decide) uriExt

/-! ### C6: the multi-From exemption -/

/-- Unfolding of the extraction loop when the address has no `@`. -/
theorem extractLoop_cons_none (rest : List Str) (fd g : Str)
    (hg : rsplitOnce '@' g = none) :
    extractLoop (g :: rest) fd = extractLoop rest fd := by
  simp only [extractLoop, hg]

/-- Unfolding of the extraction loop when the address splits. -/
theorem extractLoop_cons_some (rest : List Str) (fd g lg dg : Str)
    (hg : rsplitOnce '@' g = some (lg, dg)) :
    extractLoop (g :: rest) fd =
      (if fd = [] then extractLoop rest dg
       else if fd = dg then extractLoop rest fd else none) := by
  simp only [extractLoop, hg]

/-- Once a nonempty From domain is recorded, any later address extracting
to a different domain triggers the multi-domain exemption. -/
theorem extractLoop_ne_of_witness (W : Str) :
    ∀ (froms : List Str) (fd : Str), fd ≠ [] →
      (∃ f ∈ froms, ExtractsTo f W) → W ≠ fd →
      extractLoop froms fd = none := by
  intro froms
  induction froms with
  | nil =>
    intro fd _ hex _
    obtain ⟨f, hf, _⟩ := hex
    exact absurd hf (by simp)
  | cons g rest ih =>
    intro fd hne hex hWfd
    obtain ⟨f, hf, l, hfl⟩ := hex
    cases hg : rsplitOnce '@' g with
    | none =>
      rw [extractLoop_cons_none rest fd g hg]
      have hf' : f ∈ rest := by
        rcases List.mem_cons.mp hf with rfl | hf'
        · rw [hfl] at hg; exact Option.noConfusion hg
        · exact hf'
      exact ih fd hne ⟨f, hf', l, hfl⟩ hWfd
    | some p =>
      obtain ⟨lg, dg⟩ := p
      rw [extractLoop_cons_some rest fd g lg dg hg]
      rw [if_neg hne]
      by_cases hfd : fd = dg
      · rw [if_pos hfd]
        rcases List.mem_cons.mp hf with rfl | hf'
        · rw [hfl] at hg
          have hWdg : W = dg := congrArg Prod.snd (Option.some.inj hg)
          exact absurd (hWdg.trans hfd.symm) hWfd
        · exact ih fd hne ⟨f, hf', l, hfl⟩ hWfd
      · rw [if_neg hfd]

/-- Two addresses extracting to distinct nonempty domains force the
extraction loop to the multi-domain exemption, whatever the accumulator. -/
theorem extractLoop_two_domains (A B : Str) (hAB : A ≠ B) (hAne : A ≠ []) (hBne : B ≠ []) :
    ∀ (froms : List Str) (fd : Str),
      (∃ f ∈ froms, ExtractsTo f A) → (∃ f ∈ froms, ExtractsTo f B) →
      extractLoop froms fd = none := by
  intro froms
  induction froms with
  | nil =>
    intro fd hexA _
    obtain ⟨f, hf, _⟩ := hexA
    exact absurd hf (by simp)
  | cons g rest ih =>
    intro fd hexA hexB
    obtain ⟨fA, hfA, lA, hflA⟩ := hexA
    obtain ⟨fB, hfB, lB, hflB⟩ := hexB
    cases hg : rsplitOnce '@' g with
    | none =>
      rw [extractLoop_cons_none rest fd g hg]
      have hfA' : fA ∈ rest := by
        rcases List.mem_cons.mp hfA with rfl | hh
        · rw [hflA] at hg; exact Option.noConfusion hg
        · exact hh
      have hfB' : fB ∈ rest := by
        rcases List.mem_cons.mp hfB with rfl | hh
        · rw [hflB] at hg; exact Option.noConfusion hg
        · exact hh
      exact ih fd ⟨fA, hfA', lA, hflA⟩ ⟨fB, hfB', lB, hflB⟩
    | some p =>
      obtain ⟨lg, dg⟩ := p
      rw [extractLoop_cons_some rest fd g lg dg hg]
      by_cases hgA : fA = g
      · subst hgA
        rw [hflA] at hg
        have hdg : dg = A := (congrArg Prod.snd (Option.some.inj hg)).symm
        rw [hdg]
        have hfB' : fB ∈ rest := by
          rcases List.mem_cons.mp hfB with rfl | hh
          · rw [hflA] at hflB
            exact absurd (congrArg Prod.snd (Option.some.inj hflB)) hAB
          · exact hh
        by_cases hfd0 : fd = []
        · rw [if_pos hfd0]
          exact extractLoop_ne_of_witness B rest A hAne ⟨fB, hfB', lB, hflB⟩ (Ne.symm hAB)
        · rw [if_neg hfd0]
          by_cases hfdA : fd = A
          · rw [if_pos hfdA]
            exact extractLoop_ne_of_witness B rest fd hfd0 ⟨fB, hfB', lB, hflB⟩
              (fun hc => Ne.symm hAB (hfdA ▸ hc))
          · rw [if_neg hfdA]
      · by_cases hgB : fB = g
        · subst hgB
          rw [hflB] at hg
          have hdg : dg = B := (congrArg Prod.snd (Option.some.inj hg)).symm
          rw [hdg]
          have hfA' : fA ∈ rest := by
            rcases List.mem_cons.mp hfA with rfl | hh
            · exact absurd rfl hgA
            · exact hh
          by_cases hfd0 : fd = []
          · rw [if_pos hfd0]
            exact extractLoop_ne_of_witness A rest B hBne ⟨fA, hfA', lA, hflA⟩ hAB
          · rw [if_neg hfd0]
            by_cases hfdB : fd = B
            · rw [if_pos hfdB]
              exact extractLoop_ne_of_witness A rest fd hfd0 ⟨fA, hfA', lA, hflA⟩
                (fun hc => hAB (hfdB ▸ hc))
            · rw [if_neg hfdB]
        · have hfA' : fA ∈ rest := by
            rcases List.mem_cons.mp hfA with rfl | hh
            · exact absurd rfl hgA
            · exact hh
          have hfB' : fB ∈ rest := by
            rcases List.mem_cons.mp hfB with rfl | hh
            · exact absurd rfl hgB
            · exact hh
          by_cases hfd0 : fd = []
          · rw [if_pos hfd0]
            exact ih dg ⟨fA, hfA', lA, hflA⟩ ⟨fB, hfB', lB, hflB⟩
          · rw [if_neg hfd0]
            by_cases hfddg : fd = dg
            · rw [if_pos hfddg]
              exact ih fd ⟨fA, hfA', lA, hflA⟩ ⟨fB, hfB', lB, hflB⟩
            · rw [if_neg hfddg]

/-- C6 (counterexample).  The address `a@` has the empty domain part, which
the loop absorbs instead of counting as a distinct domain: with From
`[a@, u@b.c]` the domains `"" ≠ b.c` are distinct, yet the verification
proceeds with `b.c` and returns a non-default output. -/
theorem c6_multi_from_counterexample :
    rsplitOnce '@' (str "a@") = some (str "a", []) ∧
    rsplitOnce '@' (str "u@b.c") = some (str "u", str "b.c") ∧
    str "b.c" ≠ ([] : Str) ∧
    verify_dmarc (dnsBC recS) [str "a@", str "u@b.c"] [] [] ⟨SpfResult.None, []⟩ ≠
      some DmarcOutput.default := by
  decide

/-- C6 (amended).  If two From addresses extract to distinct *nonempty*
domain parts, `verify_dmarc` returns the default output regardless of the
DKIM outputs, mail-from domain, SPF output and DNS contents. -/
theorem c6_multi_from_default (dns : Dns) (msg : List Str) (outs : List DkimOutput)
    (mfd : Str) (spf : SpfOutput) (fA fB A B : Str)
    (hfA : fA ∈ msg) (hfB : fB ∈ msg)
    (hA : ExtractsTo fA A) (hB : ExtractsTo fB B)
    (hAB : A ≠ B) (hAne : A ≠ []) (hBne : B ≠ []) :
    verify_dmarc dns msg outs mfd spf = some DmarcOutput.default :=
  verify_dmarc_extract_none dns msg outs mfd spf
    (extractLoop_two_domains A B hAB hAne hBne msg [] ⟨fA, hfA, hA⟩ ⟨fB, hfB, hB⟩)

/-- Witness for the amended C6: two plain addresses with distinct nonempty
domains. -/
theorem c6_multi_from_default_witness :
    verify_dmarc dnsNF [str "u@a.com", str "v@b.org"] [] [] ⟨SpfResult.None, []⟩ =
      some DmarcOutput.default :=
  c6_multi_from_default dnsNF [str "u@a.com", str "v@b.org"] [] [] ⟨SpfResult.None, []⟩
    (str "u@a.com") (str "v@b.org") (str "a.com") (str "b.org")
    (by decide) (by decide) ⟨str "u", by decide⟩ ⟨str "v", by decide⟩
    (by decide) (by decide) (by decide)

end MailAuth
